import Mathlib

/-!
Verification of the internship-scout repository's algorithmic core:
the fuzzy dedup matcher of `scripts/dedup_check.py` and the Notion
reconciliation engine of `scripts/notion_sync.py`.

Modelling conventions:
* Python strings are modelled as `List Char`; Python float arithmetic on
  similarity scores is modelled as exact rational arithmetic (`ℚ`).
* CPython's `str.lower` is modelled character-wise, covering the ASCII
  range plus U+0130 (LATIN CAPITAL LETTER I WITH DOT ABOVE), the one
  non-length-preserving mapping exercised here: CPython lowercases it to
  the two code points U+0069 U+0307 per Unicode SpecialCasing.  The
  context-sensitive final-sigma rule is not exercised by any statement
  in this file.
* Network responses are supplied by an explicit environment (`Env`);
  `asyncio.gather` is modelled by processing the gathered tasks in task
  order and, crucially, by the barrier it creates: no event of a later
  phase is emitted before the gather of the previous phase completes.
-/

namespace Scout

abbrev Str := List Char

/-- Model of CPython `str.lower` on a single character: ASCII mapping via
`Char.toLower`, plus the SpecialCasing entry for U+0130 which lowercases
to the two code points U+0069 U+0307 (hence `str.lower` can lengthen a
string). -/
def pyLowerChar (c : Char) : Str :=
  if c = 'İ' then ['i', '\u0307'] else [c.toLower]

/-- Model of CPython `str.lower` (`a.lower()` in `edit_distance`). -/
def pyLower (s : Str) : Str := s.flatMap pyLowerChar

/-- Reference Levenshtein distance, by structural recursion on the front
of both lists.  `edit_distance`'s rolling-row loop is proved equal to it
(on reversed inputs) below. -/
def levF : Str → Str → Nat
  | [], bs => bs.length
  | a :: as, [] => (a :: as).length
  | a :: as, b :: bs =>
      if a = b then levF as bs
      else 1 + min (levF as bs) (min (levF as (b :: bs)) (levF (a :: as) bs))

/-- Inner loop of `edit_distance` (`for j in range(1, n + 1)`): walks the
remaining characters of `b` and the remaining old-row entries, carrying
the diagonal value `diag` (`prev`) and the entry just written `left`
(`dp[j-1]`). -/
def stepAux (x : Char) : Str → List Nat → Nat → Nat → List Nat
  | [], _, _, _ => []
  | _ :: _, [], _, _ => []
  | y :: ys, pj :: ps, diag, left =>
      let cur := if x = y then diag else 1 + min diag (min pj left)
      cur :: stepAux x ys ps pj cur

/-- One iteration of `edit_distance`'s outer loop: `dp[0] = i` (one more
than the old `dp[0]`), then the inner loop. -/
def stepRow (x : Char) (b : Str) (row : List Nat) : List Nat :=
  match row with
  | [] => []
  | p0 :: ps => (p0 + 1) :: stepAux x b ps p0 (p0 + 1)

/-- The rolling-row dynamic program of `edit_distance`, after the
`lower()` calls: `dp = list(range(n + 1))`, one `stepRow` per character
of `a`, answer `dp[n]` (the last entry of the row). -/
def edDP (a b : Str) : Nat :=
  (a.foldl (fun r x => stepRow x b r) (List.range (b.length + 1))).getLastD 0

/-- `edit_distance(a, b)` of `dedup_check.py`: case-folds both strings,
then runs the rolling-row Levenshtein DP. -/
def edit_distance (a b : Str) : Nat := edDP (pyLower a) (pyLower b)

/-- `similarity(a, b)` of `dedup_check.py`.  Emptiness and `max_len` are
taken on the original (pre-fold) strings, while the distance is computed
on the case-folded strings. -/
def similarity (a b : Str) : ℚ :=
  if a.isEmpty && b.isEmpty then 1
  else if a.isEmpty || b.isEmpty then 0
  else 1 - (edit_distance a b : ℚ) / (max a.length b.length : ℚ)

/-- `field_sim`: an empty query value never penalizes (returns 1.0). -/
def field_sim (val q : Str) : ℚ :=
  if q.isEmpty then 1 else similarity val q

/-! The dedup matcher of `dedup_check.py` (`main`): catalog entries,
weighted score, threshold filter in catalog order, then a stable sort by
descending similarity (`results.sort(key=..., reverse=True)`, which keeps
ties in their original — ascending-index — order). -/

/-- A catalog entry as consumed by `dedup_check.py`: the fields read by
the matcher, each defaulting to the empty string when absent. -/
structure DedupEntry where
  company : Str
  title : Str
  salary : Str
  location : Str
  jd_full : Str
  jd_summary : Str
deriving DecidableEq

/-- `jd_val = str(entry.get("jd_full", "") or entry.get("jd_summary", "") or "")`. -/
def jdVal (e : DedupEntry) : Str :=
  if e.jd_full.isEmpty then e.jd_summary else e.jd_full

/-- The query candidate: any subset of fields populated (empty = absent)
plus the distance-rate threshold. -/
structure Query where
  company : Str
  title : Str
  salary : Str
  location : Str
  jd : Str
  threshold : ℚ
deriving DecidableEq

/-- Default of the `--threshold` argument. -/
def defaultThreshold : ℚ := 1/4

/-- The weighted average similarity of `main`: weights company 0.30,
title 0.30, salary 0.15, location 0.10, jd 0.15. -/
def score (e : DedupEntry) (q : Query) : ℚ :=
  3/10 * field_sim e.company q.company
  + 3/10 * field_sim e.title q.title
  + 3/20 * field_sim e.salary q.salary
  + 1/10 * field_sim e.location q.location
  + 3/20 * field_sim (jdVal e) q.jd

/-- The filter loop of `main`: enumerate the catalog, keep `(idx, score)`
whenever the distance rate `1 - score` is strictly below the threshold. -/
def candidates (es : List DedupEntry) (q : Query) : List (Nat × ℚ) :=
  es.enum.filterMap fun p =>
    if 1 - score p.2 q < q.threshold then some (p.1, score p.2 q) else none

/-- Stable descending insertion: a new element goes after every element
of at least its score.  (The model of one step of a stable descending
sort; Python's `list.sort(reverse=True)` is stable.) -/
def insertDesc (x : Nat × ℚ) : List (Nat × ℚ) → List (Nat × ℚ)
  | [] => [x]
  | y :: ys => if y.2 < x.2 then x :: y :: ys else y :: insertDesc x ys

/-- Stable sort by descending score, processing candidates in ascending
catalog order (so equal scores stay in ascending-index order), modelling
`results.sort(key=lambda x: x[1], reverse=True)`. -/
def sortDesc (l : List (Nat × ℚ)) : List (Nat × ℚ) :=
  l.foldl (fun acc x => insertDesc x acc) []

/-- The full matcher: filter then stable descending sort. -/
def dedupMatch (es : List DedupEntry) (q : Query) : List (Nat × ℚ) :=
  sortDesc (candidates es q)

/-- The intended output order: strictly greater score first, ties by
ascending catalog index. -/
def rOrder (x y : Nat × ℚ) : Prop :=
  y.2 < x.2 ∨ (x.2 = y.2 ∧ x.1 < y.1)


/-- Concrete catalog entry used in closed instances below. -/
def entryA : DedupEntry := ⟨['a'], [], [], [], [], []⟩

/-- Concrete query populating only the company field, identical to
`entryA`'s company, with the default threshold 0.25. -/
def queryA : Query := ⟨['a'], [], [], [], [], 1/4⟩


/-! The DB-id extractor `extract_db_id` of `notion_sync.py`:
`re.search(r"([0-9a-f]{32})", raw.replace("-", ""))`, reformatted into
the dashed 8-4-4-4-12 form. -/

/-- The character class `[0-9a-f]` of the extractor's regex (lowercase
hex only, as in the source). -/
def isHexLower (c : Char) : Bool :=
  ('0' ≤ c && c ≤ '9') || ('a' ≤ c && c ≤ 'f')

/-- A hexadecimal digit in the usual case-insensitive sense (the reading
of the claim's words, used to state the counterexample). -/
def isHexDigitCI (c : Char) : Bool :=
  isHexLower c || ('A' ≤ c && c ≤ 'F')

/-- `raw.replace("-", "")`. -/
def stripDashes (s : Str) : Str := s.filter (fun c => !(c == '-'))

/-- `re.search` for the pattern `[0-9a-f]{32}`: the window of 32
consecutive matching characters at the leftmost possible start. -/
def findHex32 : Str → Option Str
  | [] => none
  | c :: cs =>
      if ((c :: cs).take 32).length = 32 ∧ ((c :: cs).take 32).all isHexLower = true
      then some ((c :: cs).take 32)
      else findHex32 cs

/-- The dashed 8-4-4-4-12 reformatting
`h[:8]-h[8:12]-h[12:16]-h[16:20]-h[20:]`. -/
def dashify (h : Str) : Str :=
  h.take 8 ++ ('-' :: (h.drop 8).take 4) ++ ('-' :: (h.drop 12).take 4)
    ++ ('-' :: (h.drop 16).take 4) ++ ('-' :: h.drop 20)

/-- `extract_db_id(raw)`: empty string when the pattern does not occur.
-/
def extract_db_id (raw : Str) : Str :=
  match findHex32 (stripDashes raw) with
  | none => []
  | some h => dashify h


/-! The reconciliation engine of `notion_sync.py` (`run`, `upsert_entry`,
`archive_page`, `fetch_all_page_ids`, `clear_notion_ids`,
`write_notion_id`, `main`).  Network responses are supplied by an `Env`;
a run is modelled by the ordered trace of events it emits (with the
`asyncio.gather` barriers separating the reset phases), the final
catalog document, and the gathered per-record success flags. -/

/-- A catalog entry as produced by `parse_yaml`: the fields the engine's
control flow reads (`company` for `--filter`, `url` as identity key,
`notion_page_id` as sync state).  The remaining payload fields only feed
`build_props` and influence none of the checked behaviour. -/
structure SyncEntry where
  company : Str
  url : Str
  notionPageId : Str
deriving DecidableEq

/-- Observable actions of a run, in program order.  Network events carry
`underSem`: whether their call site sits inside `async with sem`. -/
inductive Ev where
  | listCall (underSem : Bool)
  | createCall (e : SyncEntry) (underSem : Bool)
  | updateCall (pageId : Str) (underSem : Bool)
  | archiveCall (pageId : Str) (underSem : Bool)
  | clearIds
  | writeId (url id : Str)
deriving DecidableEq

/-- Network-bound events (Notion API calls). -/
def isNetwork : Ev → Bool
  | .listCall _ => true
  | .createCall _ _ => true
  | .updateCall _ _ => true
  | .archiveCall _ _ => true
  | _ => false

/-- The paginated `databases/{id}/query` calls. -/
def isListEv : Ev → Bool
  | .listCall _ => true
  | _ => false

/-- Whether the event was emitted under the semaphore (non-network
events count as trivially guarded). -/
def evGuarded : Ev → Bool
  | .listCall g => g
  | .createCall _ g => g
  | .updateCall _ g => g
  | .archiveCall _ g => g
  | _ => true

/-- The network environment: the page-id batches successive query
responses return, and the `id` field of create/update responses (`[]`
models a missing/falsy `id`, i.e. a failed call; real Notion page ids
are non-empty). -/
structure Env where
  batches : List (List Str)
  createId : SyncEntry → Str
  updateId : SyncEntry → Str
  archived : Str → Bool

/-- `fetch_all_page_ids`: one query call per response batch — issued
directly on the session, not under the semaphore — collecting every
returned page id. -/
def fetch_all_page_ids (env : Env) : List Ev × List Str :=
  (env.batches.map (fun _ => Ev.listCall false), env.batches.flatten)

/-- `upsert_entry`: a dry-run returns before any call or write;
otherwise PATCH when `notion_page_id` is set, else POST, and — only on
success and only for a non-empty url — write the returned id back. -/
def upsert_entry (env : Env) (e : SyncEntry) (dryRun : Bool) : List Ev × Bool :=
  if dryRun then ([], true)
  else if !e.notionPageId.isEmpty then
    ([Ev.updateCall e.notionPageId true], !(env.updateId e).isEmpty)
  else
    ([Ev.createCall e true] ++
      (if !(env.createId e).isEmpty && !e.url.isEmpty then
        [Ev.writeId e.url (env.createId e)]
      else []),
      !(env.createId e).isEmpty)

/-- `write_notion_id`: set `notion_page_id` on the first entry whose url
matches (the loop breaks after the first hit), leaving everything else
unchanged. -/
def write_notion_id (cat : List SyncEntry) (url id : Str) : List SyncEntry :=
  match cat with
  | [] => []
  | e :: rest =>
      if e.url = url then { e with notionPageId := id } :: rest
      else e :: write_notion_id rest url id

/-- `clear_notion_ids`: blank every entry's `notion_page_id`. -/
def clear_notion_ids (cat : List SyncEntry) : List SyncEntry :=
  cat.map (fun e => { e with notionPageId := [] })

/-- Effect of a run's mutation events on the catalog document. -/
def applyEv (cat : List SyncEntry) : Ev → List SyncEntry
  | .clearIds => clear_notion_ids cat
  | .writeId u i => write_notion_id cat u i
  | _ => cat

/-- Python substring test `needle in hay`. -/
def strContains : Str → Str → Bool
  | [], n => n.isEmpty
  | c :: t, n => n.isPrefixOf (c :: t) || strContains t n

/-- `--filter`: keep entries whose lowercased company contains the
lowercased filter string; an empty filter keeps everything. -/
def applyFilter (filt : Str) (cat : List SyncEntry) : List SyncEntry :=
  if filt.isEmpty then cat
  else cat.filter (fun e => strContains (pyLower e.company) (pyLower filt))

/-- `--mode`. -/
inductive Mode where
  | new
  | update
  | all
  | reset
deriving DecidableEq

/-- Target selection of the non-reset modes. -/
def selectTarget (mode : Mode) (entries : List SyncEntry) : List SyncEntry :=
  match mode with
  | .new => entries.filter (fun e => e.notionPageId.isEmpty)
  | .update => entries.filter (fun e => !e.notionPageId.isEmpty)
  | _ => entries

/-- Outcome of a run: the emitted events in program order, the final
catalog document, the records processed by the create/update stage, and
their gathered success flags. -/
structure RunOut where
  trace : List Ev
  catalog : List SyncEntry
  processed : List SyncEntry
  results : List Bool
deriving DecidableEq

/-- `run`.  Reset mode: query every page (step 1), then — across the
`asyncio.gather` barrier — archive them all, clear the local ids,
re-parse and rebuild (step 3); its dry-run variant skips the
archive/clear/write steps but still issues the queries.  Other modes:
select the target set and upsert it.  Gathered tasks are recorded in
task order; the final catalog folds the mutation events over the loaded
document. -/
def runSync (env : Env) (mode : Mode) (cat : List SyncEntry) (filt : Str)
    (dryRun : Bool) : RunOut :=
  let entries := applyFilter filt cat
  match mode with
  | .reset =>
      let listEvs := (fetch_all_page_ids env).1
      let pageIds := (fetch_all_page_ids env).2
      if dryRun then
        let res := entries.map (fun e => upsert_entry env e true)
        let tr := listEvs ++ (res.map Prod.fst).flatten
        { trace := tr, catalog := tr.foldl applyEv cat,
          processed := entries, results := res.map Prod.snd }
      else
        let archEvs := pageIds.map (fun p => Ev.archiveCall p true)
        let entries2 := applyFilter filt (clear_notion_ids cat)
        let res := entries2.map (fun e => upsert_entry env e false)
        let tr := listEvs ++ archEvs ++ [Ev.clearIds] ++ (res.map Prod.fst).flatten
        { trace := tr, catalog := tr.foldl applyEv cat,
          processed := entries2, results := res.map Prod.snd }
  | m =>
      let target := selectTarget m entries
      let res := target.map (fun e => upsert_entry env e dryRun)
      let tr := (res.map Prod.fst).flatten
      { trace := tr, catalog := tr.foldl applyEv cat,
        processed := target, results := res.map Prod.snd }

/-- `errors` as counted by `run`. -/
def errorCount (o : RunOut) : Nat := o.results.countP (fun b => !b)

/-- `main`: `sys.exit(0 if errors == 0 else 1)`. -/
def exitCode (o : RunOut) : Nat := if errorCount o = 0 then 0 else 1

/-- `CONCURRENCY = 3` (`asyncio.Semaphore(CONCURRENCY)`). -/
def CONCURRENCY : Nat := 3

/-- Phase of one gathered task relative to its `async with sem` call
section. -/
inductive Phase where
  | pending
  | running
  | done
deriving DecidableEq

/-- Interleaving state of a gather of guarded tasks: per-task phase and
free semaphore permits. -/
structure SemState where
  tasks : List Phase
  avail : Nat
deriving DecidableEq

/-- Start state of a gather of `n` semaphore-guarded tasks. -/
def initState (n : Nat) : SemState :=
  ⟨List.replicate n Phase.pending, CONCURRENCY⟩

/-- Semaphore semantics: a pending task enters its call section only by
taking a free permit; a task leaving the section returns its permit. -/
inductive SemStep : SemState → SemState → Prop where
  | acquire (s : SemState) (i : Nat) (hp : s.tasks[i]? = some Phase.pending)
      (ha : 0 < s.avail) :
      SemStep s ⟨s.tasks.set i Phase.running, s.avail - 1⟩
  | release (s : SemState) (i : Nat) (hr : s.tasks[i]? = some Phase.running) :
      SemStep s ⟨s.tasks.set i Phase.done, s.avail + 1⟩

/-- Reachability under `SemStep`. -/
inductive SemReach (s0 : SemState) : SemState → Prop where
  | refl : SemReach s0 s0
  | step {s t : SemState} : SemReach s0 s → SemStep s t → SemReach s0 t

/-- Number of API calls outstanding: tasks currently inside their call
section. -/
def outstanding (s : SemState) : Nat :=
  s.tasks.countP (fun p => p == Phase.running)

/-- Environment for the closed instances: one query batch holding one
page, every create/update succeeding with page id "n". -/
def env0 : Env := ⟨[[['p']]], fun _ => ['n'], fun _ => ['n'], fun _ => true⟩

/-- One unsynced catalog entry with company "a" and url "u". -/
def cat0 : List SyncEntry := [⟨['a'], ['u'], []⟩]

/-- One unsynced catalog entry whose url is empty. -/
def catNoUrl : List SyncEntry := [⟨['a'], [], []⟩]

/-! Correctness of the rolling-row DP against the reference recursion.
The invariant is stated through `rowSuffix`: the tail of the DP row after
the consumed reversed prefix `r` of `a`, walking the remaining characters
of `b` while accumulating the reversed consumed prefix `c` of `b`. -/

/-- Expected DP row entries for positions `j ≥ 1`: entry for the `b`
prefix ending after `y` is `levF r (y :: c)` where `c` is the reversed
prefix of `b` before `y`. -/
def rowSuffix (r : Str) : Str → Str → List Nat
  | _, [] => []
  | c, y :: ys => levF r (y :: c) :: rowSuffix r (y :: c) ys

/-- Expected full DP row once the reversed prefix `r` of `a` has been
consumed. -/
def fullRow (r b : Str) : List Nat := levF r [] :: rowSuffix r [] b

lemma levF_nil_right (r : Str) : levF r [] = r.length := by
  cases r <;> simp [levF]

lemma stepAux_spec (x : Char) (r : Str) : ∀ (t c : Str),
    stepAux x t (rowSuffix r c t) (levF r c) (levF (x :: r) c) =
      rowSuffix (x :: r) c t := by
  intro t
  induction t with
  | nil => intro c; rfl
  | cons y ys ih =>
      intro c
      have hcur : (if x = y then levF r c
          else 1 + min (levF r c) (min (levF r (y :: c)) (levF (x :: r) c)))
          = levF (x :: r) (y :: c) := by
        by_cases h : x = y <;> simp [levF, h]
      simp only [rowSuffix, stepAux]
      rw [hcur]
      exact congrArg (levF (x :: r) (y :: c) :: ·) (ih (y :: c))

lemma stepRow_spec (x : Char) (r b : Str) :
    stepRow x b (fullRow r b) = fullRow (x :: r) b := by
  have hx : levF (x :: r) [] = levF r [] + 1 := by
    simp [levF_nil_right]
  simp only [fullRow, stepRow]
  rw [show levF r [] + 1 = levF (x :: r) [] from hx.symm]
  rw [hx, ← hx, stepAux_spec]

lemma foldl_stepRow (b : Str) : ∀ (a r : Str),
    a.foldl (fun row x => stepRow x b row) (fullRow r b) =
      fullRow (a.reverse ++ r) b := by
  intro a
  induction a with
  | nil => intro r; simp
  | cons x xs ih =>
      intro r
      calc (x :: xs).foldl (fun row x => stepRow x b row) (fullRow r b)
          = xs.foldl (fun row x => stepRow x b row) (stepRow x b (fullRow r b)) := rfl
        _ = xs.foldl (fun row x => stepRow x b row) (fullRow (x :: r) b) := by
              rw [stepRow_spec]
        _ = fullRow (xs.reverse ++ (x :: r)) b := ih (x :: r)
        _ = fullRow ((x :: xs).reverse ++ r) b := by
              simp [List.append_assoc]

lemma rowSuffix_nil_left : ∀ (t c : Str),
    rowSuffix [] c t = (List.range t.length).map (fun k => c.length + 1 + k) := by
  intro t
  induction t with
  | nil => intro c; rfl
  | cons y ys ih =>
      intro c
      have h1 : levF [] (y :: c) = c.length + 1 := by simp [levF]
      have hf : ((fun k => c.length + 1 + k) ∘ Nat.succ)
          = (fun k => (y :: c).length + 1 + k) := by
        funext k
        simp [Function.comp]
        omega
      simp only [rowSuffix, h1, ih (y :: c), List.length_cons, List.range_succ_eq_map,
        List.map_cons, List.map_map, hf]
      try simp

lemma fullRow_nil (b : Str) : fullRow [] b = List.range (b.length + 1) := by
  have hf : (fun k => List.length ([] : Str) + 1 + k) = Nat.succ := by
    funext k
    simp
    omega
  simp only [fullRow, rowSuffix_nil_left, hf, List.range_succ_eq_map]
  simp [levF]

lemma getLastD_rowSuffix (r : Str) : ∀ (t c : Str),
    (rowSuffix r c t).getLastD (levF r c) = levF r (t.reverse ++ c) := by
  intro t
  induction t with
  | nil => intro c; rfl
  | cons y ys ih =>
      intro c
      simp only [rowSuffix, List.getLastD_cons, ih (y :: c), List.reverse_cons,
        List.append_assoc, List.singleton_append]

/-- The DP of `edit_distance` computes the reference Levenshtein distance
of the reversed inputs. -/
theorem edDP_eq_levF (a b : Str) : edDP a b = levF a.reverse b.reverse := by
  have h0 : List.range (b.length + 1) = fullRow [] b := (fullRow_nil b).symm
  have h1 : (fullRow a.reverse b).getLastD 0 = levF a.reverse b.reverse := by
    have h2 : (rowSuffix a.reverse [] b).getLastD (levF a.reverse [])
        = levF a.reverse (b.reverse ++ []) := getLastD_rowSuffix a.reverse b []
    simp only [fullRow, List.getLastD_cons, h2, List.append_nil]
  calc edDP a b
      = (a.foldl (fun r x => stepRow x b r) (fullRow [] b)).getLastD 0 := by
        rw [edDP, h0]
    _ = (fullRow (a.reverse ++ []) b).getLastD 0 := by rw [foldl_stepRow]
    _ = levF a.reverse b.reverse := by rw [List.append_nil]; exact h1

lemma levF_self : ∀ t : Str, levF t t = 0 := by
  intro t
  induction t with
  | nil => simp [levF]
  | cons x xs ih => simp [levF, ih]

lemma edDP_self (s : Str) : edDP s s = 0 := by
  rw [edDP_eq_levF, levF_self]

lemma edit_distance_self (v : Str) : edit_distance v v = 0 := by
  rw [edit_distance, edDP_self]

/-- `similarity(v, v) = 1.0` for every string `v`. -/
lemma similarity_self (v : Str) : similarity v v = 1 := by
  by_cases h : v.isEmpty
  · simp [similarity, h]
  · simp [similarity, h, edit_distance_self]

/-- Scores never exceed 1: the distance is a nonneg integer and the
divisor is positive whenever the branch dividing is taken. -/
lemma similarity_le_one (a b : Str) : similarity a b ≤ 1 := by
  by_cases hab : a.isEmpty && b.isEmpty
  · simp [similarity, hab]
  · by_cases hor : a.isEmpty || b.isEmpty
    · simp [similarity, hab, hor]
    · have hd : (0 : ℚ) ≤ (edit_distance a b : ℚ) / (max a.length b.length : ℚ) := by
        apply div_nonneg
        · exact_mod_cast Nat.zero_le _
        · exact_mod_cast Nat.zero_le _
      have heq : similarity a b
          = 1 - (edit_distance a b : ℚ) / (max a.length b.length : ℚ) := by
        simp [similarity, hab, hor]
      rw [heq]
      linarith

lemma field_sim_le_one (val q : Str) : field_sim val q ≤ 1 := by
  by_cases h : q.isEmpty
  · simp [field_sim, h]
  · simp only [field_sim, h, if_false]
    exact similarity_le_one val q

lemma field_sim_self (v q : Str) (h : q = [] ∨ q = v) : field_sim v q = 1 := by
  rcases h with h | h
  · simp [field_sim, h]
  · subst h
    by_cases hq : q.isEmpty
    · simp [field_sim, hq]
    · simp [field_sim, hq, similarity_self]

lemma insertDesc_perm (x : Nat × ℚ) : ∀ l, (insertDesc x l).Perm (x :: l) := by
  intro l
  induction l with
  | nil => simp [insertDesc]
  | cons y ys ih =>
      by_cases h : y.2 < x.2
      · simp [insertDesc, h]
      · simp only [insertDesc, h, if_false]
        exact (ih.cons y).trans (List.Perm.swap x y ys)

lemma mem_insertDesc (z x : Nat × ℚ) (l : List (Nat × ℚ)) :
    z ∈ insertDesc x l ↔ z = x ∨ z ∈ l := by
  rw [(insertDesc_perm x l).mem_iff, List.mem_cons]

lemma insertDesc_pairwise (x : Nat × ℚ) : ∀ l, List.Pairwise rOrder l →
    (∀ y ∈ l, y.1 < x.1) → List.Pairwise rOrder (insertDesc x l) := by
  intro l
  induction l with
  | nil => intro _ _; simp [insertDesc, List.pairwise_singleton]
  | cons y ys ih =>
      intro hp hidx
      rw [List.pairwise_cons] at hp
      by_cases h : y.2 < x.2
      · simp only [insertDesc, h, if_true]
        rw [List.pairwise_cons]
        refine ⟨?_, List.pairwise_cons.2 hp⟩
        intro z hz
        rcases List.mem_cons.1 hz with hz | hz
        · subst hz; exact Or.inl h
        · left
          rcases hp.1 z hz with hgt | ⟨heq, _⟩
          · exact lt_trans hgt h
          · rw [← heq]; exact h
      · simp only [insertDesc, h, if_false]
        rw [List.pairwise_cons]
        constructor
        · intro z hz
          rcases (mem_insertDesc z x ys).1 hz with hz | hz
          · subst hz
            rcases lt_or_eq_of_le (le_of_not_lt h) with hlt | heq
            · exact Or.inl hlt
            · exact Or.inr ⟨heq.symm, hidx y (List.mem_cons_self y ys)⟩
          · exact hp.1 z hz
        · exact ih hp.2 (fun z hz => hidx z (List.mem_cons_of_mem y hz))

lemma foldl_insertDesc_perm : ∀ (l acc : List (Nat × ℚ)),
    (l.foldl (fun a x => insertDesc x a) acc).Perm (l ++ acc) := by
  intro l
  induction l with
  | nil => intro acc; simp
  | cons x xs ih =>
      intro acc
      exact (ih (insertDesc x acc)).trans
        (((insertDesc_perm x acc).append_left xs).trans List.perm_middle)

lemma sortDesc_perm (l : List (Nat × ℚ)) : (sortDesc l).Perm l := by
  have h := foldl_insertDesc_perm l []
  simpa [sortDesc] using h

lemma foldl_insertDesc_pairwise : ∀ (l acc : List (Nat × ℚ)),
    List.Pairwise rOrder acc →
    (∀ y ∈ acc, ∀ x ∈ l, y.1 < x.1) →
    List.Pairwise (fun a b : Nat × ℚ => a.1 < b.1) l →
    List.Pairwise rOrder (l.foldl (fun a x => insertDesc x a) acc) := by
  intro l
  induction l with
  | nil => intro acc h _ _; exact h
  | cons x xs ih =>
      intro acc hacc hidx hl
      rw [List.pairwise_cons] at hl
      refine ih (insertDesc x acc) ?_ ?_ hl.2
      · exact insertDesc_pairwise x acc hacc
          (fun y hy => hidx y hy x (List.mem_cons_self x xs))
      · intro y hy z hz
        rcases (mem_insertDesc y x acc).1 hy with hy | hy
        · subst hy; exact hl.1 z hz
        · exact hidx y hy z (List.mem_cons_of_mem x hz)

lemma sortDesc_pairwise (l : List (Nat × ℚ))
    (h : List.Pairwise (fun a b : Nat × ℚ => a.1 < b.1) l) :
    List.Pairwise rOrder (sortDesc l) := by
  exact foldl_insertDesc_pairwise l [] List.Pairwise.nil (by simp) h

lemma candidates_idx_pairwise (es : List DedupEntry) (q : Query) :
    List.Pairwise (fun a b : Nat × ℚ => a.1 < b.1) (candidates es q) := by
  have henum : List.Pairwise (fun a b : Nat × DedupEntry => a.1 < b.1) es.enum := by
    rw [List.pairwise_iff_getElem]
    intro i j hi hj hij
    simp only [List.getElem_enum]
    simpa using hij
  rw [candidates, List.pairwise_filterMap]
  refine henum.imp_of_mem ?_
  intro a b _ _ hab x hx y hy
  simp only [Option.mem_def] at hx hy
  by_cases ha : 1 - score a.2 q < q.threshold
  · by_cases hb : 1 - score b.2 q < q.threshold
    · simp only [ha, if_true] at hx
      simp only [hb, if_true] at hy
      obtain rfl : (a.1, score a.2 q) = x := by simpa using hx
      obtain rfl : (b.1, score b.2 q) = y := by simpa using hy
      exact hab
    · simp [hb] at hy
  · simp [ha] at hx

lemma mem_candidates (es : List DedupEntry) (q : Query) (i : Nat) (s : ℚ) :
    (i, s) ∈ candidates es q ↔
      ∃ e, es[i]? = some e ∧ s = score e q ∧ 1 - score e q < q.threshold := by
  rw [candidates, List.mem_filterMap]
  constructor
  · rintro ⟨⟨j, e⟩, hmem, hf⟩
    by_cases hc : 1 - score e q < q.threshold
    · simp only [hc, if_true, Option.some.injEq, Prod.mk.injEq] at hf
      rcases hf with ⟨hj, hs⟩
      subst hj
      refine ⟨e, ?_, hs.symm, hc⟩
      exact List.mk_mem_enum_iff_getElem?.1 hmem
    · simp [hc] at hf
  · rintro ⟨e, hget, hs, hc⟩
    refine ⟨(i, e), List.mk_mem_enum_iff_getElem?.2 hget, ?_⟩
    simp [hc, hs]


lemma score_le_one (e : DedupEntry) (q : Query) : score e q ≤ 1 := by
  have h1 := field_sim_le_one e.company q.company
  have h2 := field_sim_le_one e.title q.title
  have h3 := field_sim_le_one e.salary q.salary
  have h4 := field_sim_le_one e.location q.location
  have h5 := field_sim_le_one (jdVal e) q.jd
  rw [score]
  linarith

lemma score_identical (e : DedupEntry) (q : Query)
    (hc : q.company = [] ∨ q.company = e.company)
    (ht : q.title = [] ∨ q.title = e.title)
    (hs : q.salary = [] ∨ q.salary = e.salary)
    (hl : q.location = [] ∨ q.location = e.location)
    (hj : q.jd = [] ∨ q.jd = jdVal e) : score e q = 1 := by
  rw [score, field_sim_self _ _ hc, field_sim_self _ _ ht, field_sim_self _ _ hs,
    field_sim_self _ _ hl, field_sim_self _ _ hj]
  norm_num

lemma mem_dedupMatch (es : List DedupEntry) (q : Query) (i : Nat) (s : ℚ) :
    (i, s) ∈ dedupMatch es q ↔
      ∃ e, es[i]? = some e ∧ s = score e q ∧ 1 - score e q < q.threshold := by
  rw [dedupMatch, (sortDesc_perm (candidates es q)).mem_iff]
  exact mem_candidates es q i s

lemma dedupMatch_pairwise (es : List DedupEntry) (q : Query) :
    List.Pairwise rOrder (dedupMatch es q) :=
  sortDesc_pairwise _ (candidates_idx_pairwise es q)

/-- A top-scoring member with no equal-scoring earlier catalog record is
the head of the ranked output. -/
lemma head_of_top (es : List DedupEntry) (q : Query) (i : Nat)
    (h1 : (i, (1 : ℚ)) ∈ dedupMatch es q)
    (hno : ∀ j e, j < i → es[j]? = some e → score e q < 1) :
    (dedupMatch es q).head? = some (i, 1) := by
  rcases hl : dedupMatch es q with _ | ⟨p, rest⟩
  · rw [hl] at h1
    exact absurd h1 (List.not_mem_nil _)
  · rw [hl] at h1
    have hpmem : p ∈ dedupMatch es q := by
      rw [hl]
      exact List.mem_cons_self p rest
    rcases (mem_dedupMatch es q p.1 p.2).1 (by simpa using hpmem) with
      ⟨e, hget, hscore, _⟩
    have hle : p.2 ≤ 1 := hscore ▸ score_le_one e q
    rcases List.mem_cons.1 h1 with heq | hmem
    · rw [heq.symm]
      simp
    · have hpair := dedupMatch_pairwise es q
      rw [hl, List.pairwise_cons] at hpair
      rcases hpair.1 (i, 1) hmem with hgt | ⟨heq2, hlt⟩
      · exact absurd hgt (not_lt.2 hle)
      · have : score e q < 1 := hno p.1 e hlt hget
        rw [← hscore, heq2] at this
        exact absurd this (lt_irrefl 1)

/-- C1: for every catalog and query, the matcher returns exactly the
records whose distance rate `1 - score` is strictly below the threshold
(as a permutation of the filtered enumeration, with membership
characterized against the catalog), sorted by strictly descending
similarity with equal-similarity entries in ascending catalog-index
order. -/
theorem dedup_matcher_spec (es : List DedupEntry) (q : Query) :
    (dedupMatch es q).Perm (candidates es q)
    ∧ List.Pairwise rOrder (dedupMatch es q)
    ∧ (∀ i s, ((i, s) ∈ dedupMatch es q ↔
        ∃ e, es[i]? = some e ∧ s = score e q ∧ 1 - score e q < q.threshold)) :=
  ⟨sortDesc_perm _, dedupMatch_pairwise es q, fun i s => mem_dedupMatch es q i s⟩

/-- C6 fails on the code: CPython lowercases U+0130 to two code points,
so the folded edit distance (2) exceeds the pre-fold maximum length (1)
and `similarity("İ", "x")` evaluates to -1.0, outside [0, 1]. -/
theorem similarity_out_of_range_eval :
    edit_distance ['İ'] ['x'] = 2
    ∧ max (['İ'] : Str).length (['x'] : Str).length = 1
    ∧ similarity ['İ'] ['x'] = -1 := by
  have h : edit_distance ['İ'] ['x'] = 2 := by decide
  refine ⟨h, by decide, ?_⟩
  have hne : (['İ'] : Str).isEmpty = false := by decide
  have hne2 : (['x'] : Str).isEmpty = false := by decide
  rw [similarity, hne, hne2, h]
  norm_num

/-- C7 (amended): a candidate whose populated fields are identical to
catalog record `i`'s fields scores 1.0 and appears in the matches for
every positive threshold; it is ranked first whenever no earlier catalog
record also attains score 1.0. -/
theorem identical_candidate_spec (es : List DedupEntry) (i : Nat) (r : DedupEntry)
    (q : Query)
    (hget : es[i]? = some r)
    (hθ : 0 < q.threshold)
    (hc : q.company = [] ∨ q.company = r.company)
    (ht : q.title = [] ∨ q.title = r.title)
    (hs : q.salary = [] ∨ q.salary = r.salary)
    (hl : q.location = [] ∨ q.location = r.location)
    (hj : q.jd = [] ∨ q.jd = jdVal r) :
    score r q = 1 ∧ (i, (1 : ℚ)) ∈ dedupMatch es q ∧
      ((∀ j e, j < i → es[j]? = some e → score e q < 1) →
        (dedupMatch es q).head? = some (i, 1)) := by
  have hscore : score r q = 1 := score_identical r q hc ht hs hl hj
  have hmem : (i, (1 : ℚ)) ∈ dedupMatch es q := by
    rw [mem_dedupMatch]
    refine ⟨r, hget, hscore.symm, ?_⟩
    rw [hscore]
    simpa using hθ
  exact ⟨hscore, hmem, fun hno => head_of_top es q i hmem hno⟩

/-- Witness for C7's theorem at a concrete one-record catalog. -/
theorem identical_candidate_witness :
    score entryA queryA = 1 ∧ (0, (1 : ℚ)) ∈ dedupMatch [entryA] queryA ∧
      (dedupMatch [entryA] queryA).head? = some (0, 1) := by
  have h := identical_candidate_spec [entryA] 0 entryA queryA (by rfl)
    (by rw [queryA]; norm_num) (Or.inr rfl) (Or.inl rfl) (Or.inl rfl)
    (Or.inl rfl) (Or.inl rfl)
  exact ⟨h.1, h.2.1, h.2.2 (fun j e hj _ => absurd hj (Nat.not_lt_zero j))⟩

/-- C7 as stated is false: with two identical catalog records, the
candidate identical to record 1 scores 1.0 and matches, but record 0 is
ranked first (tie broken by ascending index), so record 1 is not. -/
theorem identical_candidate_counterexample :
    ([entryA, entryA] : List DedupEntry)[1]? = some entryA
    ∧ (0 : ℚ) < (1 : ℚ)/4
    ∧ queryA.threshold = 1/4
    ∧ queryA.company = entryA.company
    ∧ (dedupMatch [entryA, entryA] queryA).head? = some (0, 1)
    ∧ (dedupMatch [entryA, entryA] queryA).head? ≠ some (1, 1) := by
  have hmem : (0, (1 : ℚ)) ∈ dedupMatch [entryA, entryA] queryA := by
    rw [mem_dedupMatch]
    refine ⟨entryA, by rfl, ?_, ?_⟩
    · rw [score_identical entryA queryA (Or.inr rfl) (Or.inl rfl) (Or.inl rfl)
        (Or.inl rfl) (Or.inl rfl)]
    · rw [score_identical entryA queryA (Or.inr rfl) (Or.inl rfl) (Or.inl rfl)
        (Or.inl rfl) (Or.inl rfl)]
      rw [queryA]
      norm_num
  have hhead : (dedupMatch [entryA, entryA] queryA).head? = some (0, 1) :=
    head_of_top [entryA, entryA] queryA 0 hmem
      (fun j e hj _ => absurd hj (Nat.not_lt_zero j))
  refine ⟨by rfl, by norm_num, by rfl, by rfl, hhead, ?_⟩
  rw [hhead]
  simp



lemma isHexLower_ne_dash (c : Char) (h : isHexLower c = true) : (c == '-') = false := by
  cases hc : c == '-'
  · rfl
  · have hcd : c = '-' := by
      exact eq_of_beq hc
    rw [hcd] at h
    exact absurd h (by decide)

lemma filter_hex_eq_self (l : Str) (h : ∀ c ∈ l, isHexLower c = true) :
    List.filter (fun c => !(c == '-')) l = l := by
  rw [List.filter_eq_self]
  intro c hc
  rw [isHexLower_ne_dash c (h c hc)]
  rfl

lemma segments_eq (h : Str) :
    h.take 8 ++ ((h.drop 8).take 4 ++ ((h.drop 12).take 4
      ++ ((h.drop 16).take 4 ++ h.drop 20))) = h := by
  have e4 : (h.drop 16).take 4 ++ h.drop 20 = h.drop 16 := by
    have hd : (h.drop 16).drop 4 = h.drop 20 := by
      rw [List.drop_drop]
    rw [← hd, List.take_append_drop]
  have e3 : (h.drop 12).take 4 ++ h.drop 16 = h.drop 12 := by
    have hd : (h.drop 12).drop 4 = h.drop 16 := by
      rw [List.drop_drop]
    rw [← hd, List.take_append_drop]
  have e2 : (h.drop 8).take 4 ++ h.drop 12 = h.drop 8 := by
    have hd : (h.drop 8).drop 4 = h.drop 12 := by
      rw [List.drop_drop]
    rw [← hd, List.take_append_drop]
  rw [e4, e3, e2, List.take_append_drop]

lemma strip_dashify (h : Str) (hall : h.all isHexLower = true) :
    stripDashes (dashify h) = h := by
  have hmem : ∀ c ∈ h, isHexLower c = true := List.all_eq_true.1 hall
  have hf : ∀ n : Nat, List.filter (fun c => !(c == '-')) (h.drop n) = h.drop n :=
    fun n => filter_hex_eq_self _ (fun c hc => hmem c (List.mem_of_mem_drop hc))
  have hft : ∀ n m : Nat,
      List.filter (fun c => !(c == '-')) ((h.drop n).take m) = (h.drop n).take m :=
    fun n m => filter_hex_eq_self _
      (fun c hc => hmem c (List.mem_of_mem_drop (List.mem_of_mem_take hc)))
  have hfh : List.filter (fun c => !(c == '-')) (h.take 8) = h.take 8 :=
    filter_hex_eq_self _ (fun c hc => hmem c (List.mem_of_mem_take hc))
  simp only [stripDashes, dashify, List.filter_append, List.filter_cons]
  simp only [show ((('-' : Char) == '-') : Bool) = true from rfl, Bool.not_true,
    Bool.false_eq_true, if_false]
  rw [hfh, hft 8 4, hft 12 4, hft 16 4, hf 20]
  simpa [List.append_assoc] using segments_eq h

lemma findHex32_full (h : Str) (h32 : h.length = 32)
    (hall : h.all isHexLower = true) : findHex32 h = some h := by
  cases h with
  | nil => simp at h32
  | cons c t =>
      rw [findHex32]
      have htake : (c :: t).take 32 = c :: t :=
        List.take_of_length_le (by rw [h32])
      rw [htake, if_pos ⟨h32, hall⟩]

lemma dashify_ne_nil (h : Str) (h32 : h.length = 32) : dashify h ≠ [] := by
  cases h with
  | nil => simp at h32
  | cons c t =>
      rw [dashify]
      simp [List.take_cons]

lemma findHex32_some_spec : ∀ (l w : Str), findHex32 l = some w →
    w.length = 32 ∧ w.all isHexLower = true ∧
      ∃ p q2, l = p ++ w ++ q2 ∧
        (∀ p2 w2 q3, l = p2 ++ w2 ++ q3 → w2.length = 32 →
          w2.all isHexLower = true → p.length ≤ p2.length) := by
  intro l
  induction l with
  | nil => intro w h; simp [findHex32] at h
  | cons c cs ih =>
      intro w hfind
      rw [findHex32] at hfind
      by_cases hc : ((c :: cs).take 32).length = 32
          ∧ ((c :: cs).take 32).all isHexLower = true
      · rw [if_pos hc, Option.some.injEq] at hfind
        subst hfind
        refine ⟨hc.1, hc.2, [], (c :: cs).drop 32, ?_, ?_⟩
        · rw [List.nil_append, List.take_append_drop]
        · intro p2 _ _ _ _ _
          exact Nat.zero_le _
      · rw [if_neg hc] at hfind
        obtain ⟨h32, hall, p', q2, hdec, hmin⟩ := ih w hfind
        refine ⟨h32, hall, c :: p', q2, ?_, ?_⟩
        · rw [List.cons_append, List.cons_append, ← hdec]
        · intro p2 w2 q3 heq hl2 ha2
          cases p2 with
          | nil =>
              exfalso
              apply hc
              rw [List.nil_append] at heq
              have htake : (c :: cs).take 32 = w2 := by
                rw [heq]
                exact List.take_left' hl2
              rw [htake]
              exact ⟨hl2, ha2⟩
          | cons d p2u =>
              have hcs : cs = p2u ++ w2 ++ q3 := by
                rw [List.cons_append, List.cons_append] at heq
                exact (List.cons_eq_cons.1 heq).2
              have := hmin p2u w2 q3 hcs hl2 ha2
              simp only [List.length_cons]
              omega

lemma findHex32_none_spec : ∀ l : Str, findHex32 l = none →
    ∀ p w q2 : Str, l = p ++ w ++ q2 → w.length = 32 →
      w.all isHexLower = true → False := by
  intro l
  induction l with
  | nil =>
      intro _ p w q2 heq h32 _
      have : w = [] := by
        rcases List.append_eq_nil.1 (List.append_eq_nil.1 heq.symm).1 with ⟨_, hw⟩
        exact hw
      rw [this] at h32
      simp at h32
  | cons c cs ih =>
      intro hfind p w q2 heq h32 hall
      rw [findHex32] at hfind
      by_cases hc : ((c :: cs).take 32).length = 32
          ∧ ((c :: cs).take 32).all isHexLower = true
      · rw [if_pos hc] at hfind
        exact absurd hfind (by simp)
      · rw [if_neg hc] at hfind
        cases p with
        | nil =>
            apply hc
            rw [List.nil_append] at heq
            have htake : (c :: cs).take 32 = w := by
              rw [heq]
              exact List.take_left' h32
            rw [htake]
            exact ⟨h32, hall⟩
        | cons d pu =>
            have hcs : cs = pu ++ w ++ q2 := by
              rw [List.cons_append, List.cons_append] at heq
              exact (List.cons_eq_cons.1 heq).2
            exact ih hfind pu w q2 hcs h32 hall

/-- C10 (amended): on inputs whose dash-stripped form contains 32
consecutive lowercase hexadecimal characters, `extract_db_id` returns
the leftmost such window in dashed 8-4-4-4-12 form; it returns the empty
string exactly when no such window exists; and it is idempotent. -/
theorem extract_db_id_spec :
    (∀ s : Str, extract_db_id s ≠ [] ↔
        ∃ p w q2 : Str, stripDashes s = p ++ w ++ q2 ∧ w.length = 32 ∧
          w.all isHexLower = true)
    ∧ (∀ s p w q2 : Str, stripDashes s = p ++ w ++ q2 → w.length = 32 →
        w.all isHexLower = true →
        (∀ p2 w2 q3 : Str, stripDashes s = p2 ++ w2 ++ q3 → w2.length = 32 →
          w2.all isHexLower = true → p.length ≤ p2.length) →
        extract_db_id s = dashify w)
    ∧ (∀ s : Str, extract_db_id (extract_db_id s) = extract_db_id s) := by
  refine ⟨?_, ?_, ?_⟩
  · intro s
    constructor
    · intro hne
      cases hf : findHex32 (stripDashes s) with
      | none => exact absurd (by simp [extract_db_id, hf]) hne
      | some h =>
          obtain ⟨h32, hall, p, q2, hdec, _⟩ := findHex32_some_spec _ h hf
          exact ⟨p, h, q2, hdec, h32, hall⟩
    · rintro ⟨p, w, q2, hdec, h32, hall⟩
      cases hf : findHex32 (stripDashes s) with
      | none => exact absurd (findHex32_none_spec _ hf p w q2 hdec h32 hall) not_false
      | some h =>
          obtain ⟨hh32, _, _, _, _, _⟩ := findHex32_some_spec _ h hf
          simp only [extract_db_id, hf]
          exact dashify_ne_nil h hh32
  · intro s p w q2 hdec h32 hall hmin
    cases hf : findHex32 (stripDashes s) with
    | none => exact absurd (findHex32_none_spec _ hf p w q2 hdec h32 hall) (by simp)
    | some w0 =>
        obtain ⟨h320, hall0, p0, q0, hdec0, hmin0⟩ := findHex32_some_spec _ w0 hf
        have hle1 : p0.length ≤ p.length := hmin0 p w q2 hdec h32 hall
        have hle2 : p.length ≤ p0.length := hmin p0 w0 q0 hdec0 h320 hall0
        have heq : p ++ (w ++ q2) = p0 ++ (w0 ++ q0) := by
          rw [← List.append_assoc, ← hdec, hdec0, List.append_assoc]
        obtain ⟨_, hrest⟩ := List.append_inj heq (le_antisymm hle2 hle1)
        obtain ⟨hw, _⟩ := List.append_inj hrest (by rw [h32, h320])
        simp only [extract_db_id, hf, hw]
  · intro s
    cases hf : findHex32 (stripDashes s) with
    | none =>
        simp only [extract_db_id, hf]
        rfl
    | some h =>
        obtain ⟨h32, hall, _, _, _, _⟩ := findHex32_some_spec _ h hf
        simp only [extract_db_id, hf]
        rw [show (match findHex32 (stripDashes (dashify h)) with
            | none => ([] : Str) | some h2 => dashify h2) = dashify h from ?_]
        rw [strip_dashify h hall, findHex32_full h h32 hall]

/-- C10 as stated is false: a 32-character input of uppercase
hexadecimal digits contains a 32-hexadecimal-digit substring, yet the
extractor (whose regex class is `[0-9a-f]`) returns the empty string. -/
theorem extract_db_id_counterexample :
    (List.replicate 32 'A').all isHexDigitCI = true
    ∧ (List.replicate 32 'A').length = 32
    ∧ stripDashes (List.replicate 32 'A') = List.replicate 32 'A'
    ∧ extract_db_id (List.replicate 32 'A') = [] := by
  refine ⟨by decide, by decide, by decide, by decide⟩



/-! Helper lemmas for the reconciliation engine. -/

lemma upsert_entry_dry (env : Env) (e : SyncEntry) :
    upsert_entry env e true = ([], true) := rfl

lemma upsert_entry_update_eq (env : Env) (e : SyncEntry)
    (hn : e.notionPageId.isEmpty = false) :
    upsert_entry env e false =
      ([Ev.updateCall e.notionPageId true], !(env.updateId e).isEmpty) := by
  rw [upsert_entry, if_neg (by simp), if_pos (by rw [hn]; rfl)]

lemma upsert_entry_create_eq (env : Env) (e : SyncEntry)
    (hn : e.notionPageId.isEmpty = true) :
    upsert_entry env e false =
      ([Ev.createCall e true] ++
        (if !(env.createId e).isEmpty && !e.url.isEmpty then
          [Ev.writeId e.url (env.createId e)]
        else []),
        !(env.createId e).isEmpty) := by
  rw [upsert_entry, if_neg (by simp), if_neg (by rw [hn]; simp)]

lemma mem_upsert_events {env : Env} {e : SyncEntry} {d : Bool} {ev : Ev}
    (h : ev ∈ (upsert_entry env e d).1) :
    ev = Ev.createCall e true ∨ ev = Ev.updateCall e.notionPageId true
      ∨ ev = Ev.writeId e.url (env.createId e) := by
  cases d with
  | true =>
      rw [upsert_entry_dry] at h
      exact absurd h (List.not_mem_nil ev)
  | false =>
      cases hn : e.notionPageId.isEmpty with
      | false =>
          rw [upsert_entry_update_eq env e hn, List.mem_singleton] at h
          exact Or.inr (Or.inl h)
      | true =>
          rw [upsert_entry_create_eq env e hn] at h
          rcases List.mem_append.1 h with h2 | h2
          · exact Or.inl (List.mem_singleton.1 h2)
          · cases hc : (!(env.createId e).isEmpty && !e.url.isEmpty) with
            | true =>
                rw [hc, if_pos rfl, List.mem_singleton] at h2
                exact Or.inr (Or.inr h2)
            | false =>
                rw [hc] at h2
                simp at h2

lemma runSync_eq_nonreset (env : Env) (cat : List SyncEntry) (filt : Str)
    (d : Bool) : ∀ m, m ≠ Mode.reset → runSync env m cat filt d =
    { trace := (((selectTarget m (applyFilter filt cat)).map
        (fun e => upsert_entry env e d)).map Prod.fst).flatten,
      catalog := ((((selectTarget m (applyFilter filt cat)).map
        (fun e => upsert_entry env e d)).map Prod.fst).flatten).foldl applyEv cat,
      processed := selectTarget m (applyFilter filt cat),
      results := ((selectTarget m (applyFilter filt cat)).map
        (fun e => upsert_entry env e d)).map Prod.snd } := by
  intro m hm
  cases m with
  | reset => exact absurd rfl hm
  | new => rfl
  | update => rfl
  | all => rfl

lemma trace_nonreset {env : Env} {cat : List SyncEntry} {filt : Str}
    {d : Bool} {m : Mode} (hm : m ≠ Mode.reset) :
    (runSync env m cat filt d).trace =
      ((selectTarget m (applyFilter filt cat)).map
        (fun e => (upsert_entry env e d).1)).flatten := by
  rw [runSync_eq_nonreset env cat filt d m hm]
  simp [List.map_map, Function.comp_def]

lemma processed_nonreset {env : Env} {cat : List SyncEntry} {filt : Str}
    {d : Bool} {m : Mode} (hm : m ≠ Mode.reset) :
    (runSync env m cat filt d).processed = selectTarget m (applyFilter filt cat) := by
  rw [runSync_eq_nonreset env cat filt d m hm]

lemma results_nonreset {env : Env} {cat : List SyncEntry} {filt : Str}
    {d : Bool} {m : Mode} (hm : m ≠ Mode.reset) :
    (runSync env m cat filt d).results =
      (selectTarget m (applyFilter filt cat)).map
        (fun e => (upsert_entry env e d).2) := by
  rw [runSync_eq_nonreset env cat filt d m hm]
  simp [List.map_map, Function.comp_def]

lemma catalog_nonreset {env : Env} {cat : List SyncEntry} {filt : Str}
    {d : Bool} {m : Mode} (hm : m ≠ Mode.reset) :
    (runSync env m cat filt d).catalog =
      (((selectTarget m (applyFilter filt cat)).map
        (fun e => (upsert_entry env e d).1)).flatten).foldl applyEv cat := by
  rw [runSync_eq_nonreset env cat filt d m hm]
  simp [List.map_map, Function.comp_def]

lemma mem_trace_nonreset {env : Env} {cat : List SyncEntry} {filt : Str}
    {d : Bool} {m : Mode} (hm : m ≠ Mode.reset) {ev : Ev} :
    ev ∈ (runSync env m cat filt d).trace ↔
      ∃ e ∈ selectTarget m (applyFilter filt cat), ev ∈ (upsert_entry env e d).1 := by
  rw [trace_nonreset hm]
  simp only [List.mem_flatten, List.mem_map]
  constructor
  · rintro ⟨l, ⟨e, he, rfl⟩, hev⟩
    exact ⟨e, he, hev⟩
  · rintro ⟨e, he, hev⟩
    exact ⟨(upsert_entry env e d).1, ⟨e, he, rfl⟩, hev⟩

lemma find_write_other (u u2 i : Str) (hne : u ≠ u2) : ∀ c : List SyncEntry,
    (write_notion_id c u i).find? (fun x => x.url == u2)
      = c.find? (fun x => x.url == u2) := by
  intro c
  induction c with
  | nil => rfl
  | cons e rest ih =>
      by_cases he : e.url = u
      · rw [write_notion_id, if_pos he]
        have h2 : (({ e with notionPageId := i } : SyncEntry).url == u2) = false := by
          simp only []
          rw [show ({ e with notionPageId := i } : SyncEntry).url = e.url from rfl]
          rw [beq_eq_false_iff_ne]
          rw [he]
          exact hne
        have h3 : (e.url == u2) = false := by
          rw [beq_eq_false_iff_ne, he]
          exact hne
        rw [List.find?_cons_of_neg _ (by rw [h2]; exact Bool.false_ne_true),
          List.find?_cons_of_neg _ (by rw [h3]; exact Bool.false_ne_true)]
      · rw [write_notion_id, if_neg he]
        by_cases h2 : e.url = u2
        · rw [List.find?_cons_of_pos _ (by simpa using h2),
            List.find?_cons_of_pos _ (by simpa using h2)]
        · rw [List.find?_cons_of_neg _ (by simpa using h2),
            List.find?_cons_of_neg _ (by simpa using h2), ih]

lemma find_write_self (u i : Str) : ∀ (c : List SyncEntry) (r : SyncEntry),
    c.find? (fun x => x.url == u) = some r →
    (write_notion_id c u i).find? (fun x => x.url == u)
      = some { r with notionPageId := i } := by
  intro c
  induction c with
  | nil => intro r h; simp at h
  | cons e rest ih =>
      intro r hfind
      by_cases he : e.url = u
      · rw [List.find?_cons_of_pos _ (by simpa using he), Option.some.injEq] at hfind
        subst hfind
        rw [write_notion_id, if_pos he]
        exact List.find?_cons_of_pos _ (by simpa using he)
      · rw [List.find?_cons_of_neg _ (by simpa using he)] at hfind
        rw [write_notion_id, if_neg he]
        rw [List.find?_cons_of_neg _ (by simpa using he)]
        exact ih r hfind

lemma countP_url_write (u i u2 : Str) : ∀ c : List SyncEntry,
    (write_notion_id c u i).countP (fun x => x.url == u2)
      = c.countP (fun x => x.url == u2) := by
  intro c
  induction c with
  | nil => rfl
  | cons e rest ih =>
      by_cases he : e.url = u
      · rw [write_notion_id, if_pos he]
        rw [List.countP_cons, List.countP_cons]
      · rw [write_notion_id, if_neg he, List.countP_cons, List.countP_cons, ih]

lemma find?_eq_of_countP_one {α : Type} (p : α → Bool) : ∀ (c : List α) (x : α),
    c.countP p = 1 → x ∈ c → p x = true → c.find? p = some x := by
  intro c
  induction c with
  | nil => intro x _ hx; exact absurd hx (List.not_mem_nil x)
  | cons e rest ih =>
      intro x hcount hx hpx
      by_cases hpe : p e = true
      · rw [List.countP_cons_of_pos _ _ hpe] at hcount
        have hrest : rest.countP p = 0 := by omega
        rcases List.mem_cons.1 hx with rfl | hx2
        · exact List.find?_cons_of_pos _ hpe
        · exact absurd hpx (by
            have := List.countP_eq_zero.1 hrest x hx2
            simpa using this)
      · rw [List.countP_cons_of_neg _ _ (by simpa using hpe)] at hcount
        rcases List.mem_cons.1 hx with rfl | hx2
        · exact absurd hpx (by simpa using hpe)
        · rw [List.find?_cons_of_neg _ (by simpa using hpe)]
          exact ih x hcount hx2 hpx

lemma eq_of_countP_one_mem {α : Type} (p : α → Bool) (c : List α) (x y : α)
    (hcount : c.countP p = 1) (hx : x ∈ c) (hpx : p x = true)
    (hy : y ∈ c) (hpy : p y = true) : x = y := by
  have h1 := find?_eq_of_countP_one p c x hcount hx hpx
  have h2 := find?_eq_of_countP_one p c y hcount hy hpy
  rw [h1, Option.some.injEq] at h2
  exact h2



lemma mem_applyFilter {filt : Str} {c : List SyncEntry} {e : SyncEntry}
    (h : e ∈ applyFilter filt c) : e ∈ c := by
  rw [applyFilter] at h
  by_cases hf : filt.isEmpty
  · rwa [if_pos hf] at h
  · rw [if_neg hf] at h
    exact (List.mem_filter.1 h).1

lemma mem_selectTarget_new {l : List SyncEntry} {e : SyncEntry}
    (h : e ∈ selectTarget Mode.new l) : e ∈ l ∧ e.notionPageId.isEmpty = true := by
  rw [selectTarget] at h
  exact ⟨(List.mem_filter.1 h).1, (List.mem_filter.1 h).2⟩

lemma catalog_nonreset_foldl {env : Env} {cat : List SyncEntry} {filt : Str}
    {d : Bool} {m : Mode} (hm : m ≠ Mode.reset) :
    (runSync env m cat filt d).catalog =
      (selectTarget m (applyFilter filt cat)).foldl
        (fun c e => ((upsert_entry env e d).1).foldl applyEv c) cat := by
  rw [catalog_nonreset hm, List.foldl_flatten, List.foldl_map]

lemma upsert_effect (env : Env) (e : SyncEntry) (c : List SyncEntry)
    (he : e.notionPageId.isEmpty = true) :
    ((upsert_entry env e false).1).foldl applyEv c =
      if !(env.createId e).isEmpty && !e.url.isEmpty then
        write_notion_id c e.url (env.createId e)
      else c := by
  rw [upsert_entry_create_eq env e he]
  cases hc : (!(env.createId e).isEmpty && !e.url.isEmpty) with
  | true => simp [hc, applyEv]
  | false => simp [hc, applyEv]

lemma fold_keep (env : Env) (u : Str) (r tgt : SyncEntry) : ∀ (l : List SyncEntry)
    (c : List SyncEntry),
    (∀ e ∈ l, e.url = u → e = r) →
    (∀ e ∈ l, e.notionPageId.isEmpty = true) →
    (∀ c2 : List SyncEntry, c2.find? (fun x => x.url == u) = some tgt →
      (((upsert_entry env r false).1).foldl applyEv c2).find?
          (fun x => x.url == u) = some tgt) →
    c.find? (fun x => x.url == u) = some tgt →
    (l.foldl (fun c e => ((upsert_entry env e false).1).foldl applyEv c) c).find?
        (fun x => x.url == u) = some tgt := by
  intro l
  induction l with
  | nil => intro c _ _ _ h; exact h
  | cons e lr ih =>
      intro c huniq hnid hw hfind
      rw [List.foldl_cons]
      by_cases heu : e.url = u
      · have her : e = r := huniq e (List.mem_cons_self e lr) heu
        subst her
        exact ih _ (fun x hx => huniq x (List.mem_cons_of_mem e hx))
          (fun x hx => hnid x (List.mem_cons_of_mem e hx)) hw (hw c hfind)
      · have hstep : (((upsert_entry env e false).1).foldl applyEv c).find?
            (fun x => x.url == u) = some tgt := by
          rw [upsert_effect env e c (hnid e (List.mem_cons_self e lr))]
          cases hc : (!(env.createId e).isEmpty && !e.url.isEmpty) with
          | true => rw [if_pos rfl, find_write_other e.url u _ heu, hfind]
          | false => rw [if_neg Bool.false_ne_true, hfind]
        exact ih _ (fun x hx => huniq x (List.mem_cons_of_mem e hx))
          (fun x hx => hnid x (List.mem_cons_of_mem e hx)) hw hstep

lemma fold_other (env : Env) (u : Str) : ∀ (l : List SyncEntry)
    (c : List SyncEntry),
    (∀ e ∈ l, e.url ≠ u) →
    (∀ e ∈ l, e.notionPageId.isEmpty = true) →
    (l.foldl (fun c e => ((upsert_entry env e false).1).foldl applyEv c) c).find?
        (fun x => x.url == u) = c.find? (fun x => x.url == u) := by
  intro l
  induction l with
  | nil => intro c _ _; rfl
  | cons e lr ih =>
      intro c hne hnid
      rw [List.foldl_cons]
      rw [ih _ (fun x hx => hne x (List.mem_cons_of_mem e hx))
        (fun x hx => hnid x (List.mem_cons_of_mem e hx))]
      rw [upsert_effect env e c (hnid e (List.mem_cons_self e lr))]
      cases hc : (!(env.createId e).isEmpty && !e.url.isEmpty) with
      | true =>
          rw [if_pos rfl,
            find_write_other e.url u _ (hne e (List.mem_cons_self e lr))]
      | false => rw [if_neg Bool.false_ne_true]

lemma countP_url_fold (env : Env) (u2 : Str) : ∀ (l : List SyncEntry)
    (c : List SyncEntry),
    (∀ e ∈ l, e.notionPageId.isEmpty = true) →
    (l.foldl (fun c e => ((upsert_entry env e false).1).foldl applyEv c) c).countP
        (fun x => x.url == u2) = c.countP (fun x => x.url == u2) := by
  intro l
  induction l with
  | nil => intro c _; rfl
  | cons e lr ih =>
      intro c hnid
      rw [List.foldl_cons]
      rw [ih _ (fun x hx => hnid x (List.mem_cons_of_mem e hx))]
      rw [upsert_effect env e c (hnid e (List.mem_cons_self e lr))]
      cases hc : (!(env.createId e).isEmpty && !e.url.isEmpty) with
      | true => rw [if_pos rfl, countP_url_write]
      | false => rw [if_neg Bool.false_ne_true]

lemma fold_main (env : Env) (r : SyncEntry) (hurl : r.url.isEmpty = false) :
    ∀ (l : List SyncEntry) (c : List SyncEntry),
    (∀ e ∈ l, e.url = r.url → e = r) →
    (∀ e ∈ l, e.notionPageId.isEmpty = true) →
    r ∈ l →
    c.find? (fun x => x.url == r.url) = some r →
    (l.foldl (fun c e => ((upsert_entry env e false).1).foldl applyEv c) c).find?
        (fun x => x.url == r.url) =
      some (if (env.createId r).isEmpty then r
        else { r with notionPageId := env.createId r }) := by
  intro l
  induction l with
  | nil => intro c _ _ hr; exact absurd hr (List.not_mem_nil r)
  | cons e lr ih =>
      intro c huniq hnid hr hfind
      rw [List.foldl_cons]
      by_cases heu : e.url = r.url
      · have her : e = r := huniq e (List.mem_cons_self e lr) heu
        subst her
        have hre : e.notionPageId.isEmpty = true := hnid e (List.mem_cons_self e lr)
        cases hcid : (env.createId e).isEmpty with
        | false =>
            have hcond : (!(env.createId e).isEmpty && !e.url.isEmpty) = true := by
              rw [hcid, hurl]
              rfl
            have hstep : (((upsert_entry env e false).1).foldl applyEv c).find?
                (fun x => x.url == e.url)
                = some { e with notionPageId := env.createId e } := by
              rw [upsert_effect env e c hre, if_pos (by rw [hcond])]
              exact find_write_self e.url (env.createId e) c e hfind
            rw [if_neg Bool.false_ne_true]
            refine fold_keep env e.url e { e with notionPageId := env.createId e }
              lr _ (fun x hx => huniq x (List.mem_cons_of_mem e hx))
              (fun x hx => hnid x (List.mem_cons_of_mem e hx)) ?_ hstep
            intro c2 hc2
            rw [upsert_effect env e c2 hre, if_pos (by rw [hcond])]
            exact find_write_self e.url (env.createId e) c2
              { e with notionPageId := env.createId e } hc2
        | true =>
            have hcond : (!(env.createId e).isEmpty && !e.url.isEmpty) = false := by
              rw [hcid]
              rfl
            have hstep : (((upsert_entry env e false).1).foldl applyEv c).find?
                (fun x => x.url == e.url) = some e := by
              rw [upsert_effect env e c hre,
                if_neg (by rw [hcond]; exact Bool.false_ne_true), hfind]
            rw [if_pos rfl]
            refine fold_keep env e.url e e lr _
              (fun x hx => huniq x (List.mem_cons_of_mem e hx))
              (fun x hx => hnid x (List.mem_cons_of_mem e hx)) ?_ hstep
            intro c2 hc2
            rw [upsert_effect env e c2 hre,
              if_neg (by rw [hcond]; exact Bool.false_ne_true)]
            exact hc2
      · have hstep : (((upsert_entry env e false).1).foldl applyEv c).find?
            (fun x => x.url == r.url) = some r := by
          rw [upsert_effect env e c (hnid e (List.mem_cons_self e lr))]
          cases hc : (!(env.createId e).isEmpty && !e.url.isEmpty) with
          | true => rw [if_pos rfl, find_write_other e.url r.url _ heu, hfind]
          | false => rw [if_neg Bool.false_ne_true, hfind]
        have hrlr : r ∈ lr := by
          rcases List.mem_cons.1 hr with rfl | h2
          · exact absurd rfl heu
          · exact h2
        exact ih _ (fun x hx => huniq x (List.mem_cons_of_mem e hx))
          (fun x hx => hnid x (List.mem_cons_of_mem e hx)) hrlr hstep



lemma mem_upsert_events_create {env : Env} {e : SyncEntry} {ev : Ev}
    (hn : e.notionPageId.isEmpty = true) (h : ev ∈ (upsert_entry env e false).1) :
    ev = Ev.createCall e true ∨ ev = Ev.writeId e.url (env.createId e) := by
  rw [upsert_entry_create_eq env e hn] at h
  rcases List.mem_append.1 h with h2 | h2
  · exact Or.inl (List.mem_singleton.1 h2)
  · cases hc : (!(env.createId e).isEmpty && !e.url.isEmpty) with
    | true =>
        rw [hc, if_pos rfl, List.mem_singleton] at h2
        exact Or.inr h2
    | false =>
        rw [hc] at h2
        simp at h2

lemma new_mode_ne_reset : Mode.new ≠ Mode.reset := by decide

/-- The catalog after a create-only run, looked up at a processed
record's unique non-empty url: the record got the returned id written
back on success and is unchanged on failure. -/
lemma new_catalog_find (env : Env) (cat : List SyncEntry) (filt : Str)
    (r : SyncEntry)
    (hcount : cat.countP (fun x => x.url == r.url) = 1)
    (hr : r ∈ (runSync env Mode.new cat filt false).processed)
    (hurl : r.url.isEmpty = false) :
    (runSync env Mode.new cat filt false).catalog.find? (fun x => x.url == r.url)
      = some (if (env.createId r).isEmpty then r
          else { r with notionPageId := env.createId r }) := by
  rw [processed_nonreset new_mode_ne_reset] at hr
  have hrcat : r ∈ cat := mem_applyFilter (mem_selectTarget_new hr).1
  have hfind0 : cat.find? (fun x => x.url == r.url) = some r :=
    find?_eq_of_countP_one _ cat r hcount hrcat (by simp)
  have huniq : ∀ e ∈ selectTarget Mode.new (applyFilter filt cat),
      e.url = r.url → e = r := by
    intro e he heq
    exact eq_of_countP_one_mem (fun x => x.url == r.url) cat e r hcount
      (mem_applyFilter (mem_selectTarget_new he).1) (by simp [heq]) hrcat (by simp)
  have hnid : ∀ e ∈ selectTarget Mode.new (applyFilter filt cat),
      e.notionPageId.isEmpty = true :=
    fun e he => (mem_selectTarget_new he).2
  rw [catalog_nonreset_foldl new_mode_ne_reset]
  exact fold_main env r hurl _ cat huniq hnid hr hfind0

lemma selectTarget_new_eq (l : List SyncEntry) :
    selectTarget Mode.new l = l.filter (fun e => e.notionPageId.isEmpty) := rfl

/-- C3 (amended): in create-only mode the processed records are exactly
the filtered records without an external_page_id, every network call is
a create (none is an update, archive or list), and for a processed
record with a non-empty, catalog-unique url the returned id is written
back exactly on success, the record keeping its empty `notion_page_id`
on failure. -/
theorem create_only_spec (env : Env) (cat : List SyncEntry) (filt : Str) :
    (∀ ev ∈ (runSync env Mode.new cat filt false).trace,
        isNetwork ev = true → ∃ e, ev = Ev.createCall e true)
    ∧ (∀ e g, Ev.createCall e g ∈ (runSync env Mode.new cat filt false).trace →
        e.notionPageId = [] ∧ e ∈ applyFilter filt cat ∧ g = true)
    ∧ (∀ r : SyncEntry, r ∈ (runSync env Mode.new cat filt false).processed ↔
        r ∈ applyFilter filt cat ∧ r.notionPageId = [])
    ∧ (∀ r, r ∈ (runSync env Mode.new cat filt false).processed →
        cat.countP (fun x => x.url == r.url) = 1 → r.url.isEmpty = false →
        (runSync env Mode.new cat filt false).catalog.find?
            (fun x => x.url == r.url)
          = some (if (env.createId r).isEmpty then r
              else { r with notionPageId := env.createId r })) := by
  refine ⟨?_, ?_, ?_, ?_⟩
  · intro ev hev hnet
    rcases (mem_trace_nonreset new_mode_ne_reset).1 hev with ⟨e, he, hup⟩
    rcases mem_upsert_events_create (mem_selectTarget_new he).2 hup with rfl | rfl
    · exact ⟨e, rfl⟩
    · simp [isNetwork] at hnet
  · intro e g hev
    rcases (mem_trace_nonreset new_mode_ne_reset).1 hev with ⟨e2, he2, hup⟩
    rcases mem_upsert_events_create (mem_selectTarget_new he2).2 hup with heq | heq
    · rcases Ev.createCall.inj heq.symm with ⟨rfl, rfl⟩
      exact ⟨List.isEmpty_iff.1 (mem_selectTarget_new he2).2,
        (mem_selectTarget_new he2).1, rfl⟩
    · exact absurd heq (by simp)
  · intro r
    rw [processed_nonreset new_mode_ne_reset, selectTarget_new_eq, List.mem_filter]
    constructor
    · rintro ⟨h1, h2⟩
      exact ⟨h1, List.isEmpty_iff.1 h2⟩
    · rintro ⟨h1, h2⟩
      exact ⟨h1, List.isEmpty_iff.2 h2⟩
  · intro r hr hcount hurl
    exact new_catalog_find env cat filt r hcount hr hurl

/-- C3 as stated is false at a record with an empty url: the run issues
exactly one network call, a create, which succeeds (the environment
returns page id "n"), yet no write-back event is emitted and the catalog
is unchanged — the record keeps its empty `notion_page_id` despite the
successful create. -/
theorem create_only_counterexample :
    (runSync env0 Mode.new catNoUrl [] false).trace
      = [Ev.createCall ⟨['a'], [], []⟩ true]
    ∧ (runSync env0 Mode.new catNoUrl [] false).results = [true]
    ∧ env0.createId ⟨['a'], [], []⟩ = ['n']
    ∧ (runSync env0 Mode.new catNoUrl [] false).catalog = catNoUrl
    ∧ catNoUrl.map SyncEntry.notionPageId = [[]] := by
  refine ⟨by decide, by decide, by decide, by decide, by decide⟩

/-- C4 (amended): after a successful create for a record with a unique
non-empty url, re-running create-only does not select any record with
that url, issues no create call for it, and leaves its catalog entry
unchanged. -/
theorem create_only_idempotent (env : Env) (cat : List SyncEntry) (filt : Str)
    (r : SyncEntry)
    (hcount : cat.countP (fun x => x.url == r.url) = 1)
    (hr : r ∈ (runSync env Mode.new cat filt false).processed)
    (hurl : r.url.isEmpty = false)
    (hsucc : (env.createId r).isEmpty = false) :
    (∀ e ∈ (runSync env Mode.new (runSync env Mode.new cat filt false).catalog
        filt false).processed, e.url ≠ r.url)
    ∧ (∀ e g, Ev.createCall e g ∈ (runSync env Mode.new
        (runSync env Mode.new cat filt false).catalog filt false).trace →
        e.url ≠ r.url)
    ∧ (runSync env Mode.new (runSync env Mode.new cat filt false).catalog
        filt false).catalog.find? (fun x => x.url == r.url)
      = (runSync env Mode.new cat filt false).catalog.find?
          (fun x => x.url == r.url) := by
  have hfind1 : (runSync env Mode.new cat filt false).catalog.find?
      (fun x => x.url == r.url)
      = some { r with notionPageId := env.createId r } := by
    rw [new_catalog_find env cat filt r hcount hr hurl,
      if_neg (by rw [hsucc]; exact Bool.false_ne_true)]
  have hcount1 : (runSync env Mode.new cat filt false).catalog.countP
      (fun x => x.url == r.url) = 1 := by
    rw [catalog_nonreset_foldl new_mode_ne_reset,
      countP_url_fold env r.url _ cat (fun e he => (mem_selectTarget_new he).2)]
    exact hcount
  have hr1mem : ({ r with notionPageId := env.createId r } : SyncEntry)
      ∈ (runSync env Mode.new cat filt false).catalog :=
    List.mem_of_find?_eq_some hfind1
  have hnotsel : ∀ e ∈ selectTarget Mode.new
      (applyFilter filt (runSync env Mode.new cat filt false).catalog),
      e.url ≠ r.url := by
    intro e he heq
    have hecat : e ∈ (runSync env Mode.new cat filt false).catalog :=
      mem_applyFilter (mem_selectTarget_new he).1
    have heeq : e = { r with notionPageId := env.createId r } :=
      eq_of_countP_one_mem (fun x => x.url == r.url) _ e
        { r with notionPageId := env.createId r } hcount1 hecat (by simp [heq])
        hr1mem (by simp)
    have := (mem_selectTarget_new he).2
    rw [heeq] at this
    rw [show ({ r with notionPageId := env.createId r } : SyncEntry).notionPageId
      = env.createId r from rfl] at this
    rw [hsucc] at this
    exact Bool.false_ne_true this
  refine ⟨?_, ?_, ?_⟩
  · intro e he
    rw [processed_nonreset new_mode_ne_reset] at he
    exact hnotsel e he
  · intro e g hev
    rcases (mem_trace_nonreset new_mode_ne_reset).1 hev with ⟨e2, he2, hup⟩
    rcases mem_upsert_events_create (mem_selectTarget_new he2).2 hup with heq | heq
    · rcases Ev.createCall.inj heq.symm with ⟨rfl, rfl⟩
      exact hnotsel e2 he2
    · exact absurd heq (by simp)
  · rw [@catalog_nonreset_foldl env ((runSync env Mode.new cat filt false).catalog)
      filt false Mode.new new_mode_ne_reset]
    exact fold_other env r.url _ _ hnotsel
      (fun e he => (mem_selectTarget_new he).2)

/-- Witness for C4's theorem at a concrete one-record catalog with a
non-empty url. -/
theorem create_only_idempotent_witness :
    (∀ e ∈ (runSync env0 Mode.new (runSync env0 Mode.new cat0 [] false).catalog
        [] false).processed, e.url ≠ (⟨['a'], ['u'], []⟩ : SyncEntry).url)
    ∧ (∀ e g, Ev.createCall e g ∈ (runSync env0 Mode.new
        (runSync env0 Mode.new cat0 [] false).catalog [] false).trace →
        e.url ≠ (⟨['a'], ['u'], []⟩ : SyncEntry).url)
    ∧ (runSync env0 Mode.new (runSync env0 Mode.new cat0 [] false).catalog
        [] false).catalog.find?
          (fun x => x.url == (⟨['a'], ['u'], []⟩ : SyncEntry).url)
      = (runSync env0 Mode.new cat0 [] false).catalog.find?
          (fun x => x.url == (⟨['a'], ['u'], []⟩ : SyncEntry).url) :=
  create_only_idempotent env0 cat0 [] ⟨['a'], ['u'], []⟩ (by decide) (by decide)
    (by decide) (by decide)

/-- C4 as stated is false at a record with an empty url: the first
create succeeds, but the id cannot be keyed back by url, so a second
create-only run selects the record again and issues a second create. -/
theorem create_only_idem_counterexample :
    (runSync env0 Mode.new catNoUrl [] false).results = [true]
    ∧ Ev.createCall ⟨['a'], [], []⟩ true ∈ (runSync env0 Mode.new
        (runSync env0 Mode.new catNoUrl [] false).catalog [] false).trace := by
  refine ⟨by decide, by decide⟩



lemma runSync_reset_eq (env : Env) (cat : List SyncEntry) (filt : Str) :
    runSync env Mode.reset cat filt false =
    { trace := (fetch_all_page_ids env).1
        ++ (fetch_all_page_ids env).2.map (fun p => Ev.archiveCall p true)
        ++ [Ev.clearIds]
        ++ (((applyFilter filt (clear_notion_ids cat)).map
            (fun e => upsert_entry env e false)).map Prod.fst).flatten,
      catalog := ((fetch_all_page_ids env).1
        ++ (fetch_all_page_ids env).2.map (fun p => Ev.archiveCall p true)
        ++ [Ev.clearIds]
        ++ (((applyFilter filt (clear_notion_ids cat)).map
            (fun e => upsert_entry env e false)).map Prod.fst).flatten).foldl
          applyEv cat,
      processed := applyFilter filt (clear_notion_ids cat),
      results := ((applyFilter filt (clear_notion_ids cat)).map
        (fun e => upsert_entry env e false)).map Prod.snd } := rfl

lemma runSync_reset_dry_eq (env : Env) (cat : List SyncEntry) (filt : Str) :
    runSync env Mode.reset cat filt true =
    { trace := (fetch_all_page_ids env).1
        ++ (((applyFilter filt cat).map
            (fun e => upsert_entry env e true)).map Prod.fst).flatten,
      catalog := ((fetch_all_page_ids env).1
        ++ (((applyFilter filt cat).map
            (fun e => upsert_entry env e true)).map Prod.fst).flatten).foldl
          applyEv cat,
      processed := applyFilter filt cat,
      results := ((applyFilter filt cat).map
        (fun e => upsert_entry env e true)).map Prod.snd } := rfl

lemma mem_of_getElem?_some {α : Type} {l : List α} {i : Nat} {x : α}
    (h : l[i]? = some x) : x ∈ l := by
  rcases List.getElem?_eq_some_iff.1 h with ⟨hl, rfl⟩
  exact List.getElem_mem hl

lemma pos_lt_of_not_mem_suffix {α : Type} {A B : List α} {i : Nat} {x : α}
    (h : (A ++ B)[i]? = some x) (hx : x ∉ B) : i < A.length := by
  by_contra hge
  push_neg at hge
  rw [List.getElem?_append_right hge] at h
  exact hx (mem_of_getElem?_some h)

lemma pos_ge_of_not_mem_prefix {α : Type} {A B : List α} {i : Nat} {x : α}
    (h : (A ++ B)[i]? = some x) (hx : x ∉ A) : A.length ≤ i := by
  by_contra hlt
  push_neg at hlt
  rw [List.getElem?_append_left hlt] at h
  exact hx (mem_of_getElem?_some h)

lemma mem_flatten_upserts {env : Env} {l : List SyncEntry} {d : Bool} {ev : Ev}
    (h : ev ∈ ((l.map (fun e => upsert_entry env e d)).map Prod.fst).flatten) :
    ∃ e ∈ l, ev ∈ (upsert_entry env e d).1 := by
  rcases List.mem_flatten.1 h with ⟨evs, hevs, hev⟩
  rcases List.mem_map.1 hevs with ⟨pr, hpr, rfl⟩
  rcases List.mem_map.1 hpr with ⟨e, he, rfl⟩
  exact ⟨e, he, hev⟩

/-- C2: in a non-dry-run reset, every archive event (one per enumerated
page) occurs strictly before the clearing of the local ids, which occurs
strictly before every create of the rebuild phase. -/
theorem reset_barrier (env : Env) (cat : List SyncEntry) (filt : Str) :
    (∀ p ∈ (fetch_all_page_ids env).2,
        Ev.archiveCall p true ∈ (runSync env Mode.reset cat filt false).trace)
    ∧ (∀ (i j : Nat) (p : Str) (g : Bool),
        (runSync env Mode.reset cat filt false).trace[i]?
          = some (Ev.archiveCall p g) →
        (runSync env Mode.reset cat filt false).trace[j]? = some Ev.clearIds →
        i < j)
    ∧ (∀ (j k : Nat) (e : SyncEntry) (g : Bool),
        (runSync env Mode.reset cat filt false).trace[j]? = some Ev.clearIds →
        (runSync env Mode.reset cat filt false).trace[k]?
          = some (Ev.createCall e g) →
        j < k) := by
  have htr : (runSync env Mode.reset cat filt false).trace
      = ((fetch_all_page_ids env).1
          ++ (fetch_all_page_ids env).2.map (fun p => Ev.archiveCall p true))
        ++ (Ev.clearIds
          :: (((applyFilter filt (clear_notion_ids cat)).map
            (fun e => upsert_entry env e false)).map Prod.fst).flatten) := by
    rw [runSync_reset_eq]
    simp [List.append_assoc]
  have hclear_notin_A : Ev.clearIds ∉ (fetch_all_page_ids env).1
      ++ (fetch_all_page_ids env).2.map (fun p => Ev.archiveCall p true) := by
    intro hmem
    rcases List.mem_append.1 hmem with h2 | h2
    · rcases List.mem_map.1 h2 with ⟨_, _, h3⟩
      exact Ev.noConfusion h3
    · rcases List.mem_map.1 h2 with ⟨_, _, h3⟩
      exact Ev.noConfusion h3
  have hclear_notin_L3 : Ev.clearIds
      ∉ (((applyFilter filt (clear_notion_ids cat)).map
        (fun e => upsert_entry env e false)).map Prod.fst).flatten := by
    intro hmem
    rcases mem_flatten_upserts hmem with ⟨e, _, hup⟩
    rcases mem_upsert_events hup with h3 | h3 | h3 <;> exact Ev.noConfusion h3
  refine ⟨?_, ?_, ?_⟩
  · intro p hp
    rw [htr]
    refine List.mem_append.2 (Or.inl (List.mem_append.2 (Or.inr ?_)))
    exact List.mem_map.2 ⟨p, hp, rfl⟩
  · intro i j p g hi hj
    rw [htr] at hi hj
    have hiA : i < ((fetch_all_page_ids env).1
        ++ (fetch_all_page_ids env).2.map (fun p => Ev.archiveCall p true)).length := by
      refine pos_lt_of_not_mem_suffix hi ?_
      intro hmem
      rcases List.mem_cons.1 hmem with h3 | h3
      · exact Ev.noConfusion h3
      · rcases mem_flatten_upserts h3 with ⟨e, _, hup⟩
        rcases mem_upsert_events hup with h4 | h4 | h4 <;> exact Ev.noConfusion h4
    have hjA : ((fetch_all_page_ids env).1
        ++ (fetch_all_page_ids env).2.map (fun p => Ev.archiveCall p true)).length
        ≤ j := pos_ge_of_not_mem_prefix hj hclear_notin_A
    omega
  · intro j k e g hj hk
    have htr2 : (runSync env Mode.reset cat filt false).trace
        = (((fetch_all_page_ids env).1
            ++ (fetch_all_page_ids env).2.map (fun p => Ev.archiveCall p true))
          ++ [Ev.clearIds])
          ++ (((applyFilter filt (clear_notion_ids cat)).map
            (fun e => upsert_entry env e false)).map Prod.fst).flatten := by
      rw [htr]
      simp [List.append_assoc]
    rw [htr2] at hj hk
    have hjlt : j < (((fetch_all_page_ids env).1
        ++ (fetch_all_page_ids env).2.map (fun p => Ev.archiveCall p true))
        ++ [Ev.clearIds]).length :=
      pos_lt_of_not_mem_suffix hj hclear_notin_L3
    have hkge : (((fetch_all_page_ids env).1
        ++ (fetch_all_page_ids env).2.map (fun p => Ev.archiveCall p true))
        ++ [Ev.clearIds]).length ≤ k := by
      refine pos_ge_of_not_mem_prefix hk ?_
      intro hmem
      rcases List.mem_append.1 hmem with h2 | h2
      · rcases List.mem_append.1 h2 with h3 | h3
        · rcases List.mem_map.1 h3 with ⟨_, _, h4⟩
          exact Ev.noConfusion h4
        · rcases List.mem_map.1 h3 with ⟨_, _, h4⟩
          exact Ev.noConfusion h4
      · rcases List.mem_singleton.1 h2 with h3
        exact Ev.noConfusion h3
    omega

/-- C5 fails on the code: in reset mode a dry-run still issues the
paginated database query — a network call — while (as the rest of the
run shows) performing no catalog mutation and reporting every record as
would-be-synced. -/
theorem reset_dryrun_network_call :
    Ev.listCall false ∈ (runSync env0 Mode.reset cat0 [] true).trace
    ∧ isNetwork (Ev.listCall false) = true
    ∧ (runSync env0 Mode.reset cat0 [] true).catalog = cat0
    ∧ (runSync env0 Mode.reset cat0 [] true).results = [true] := by
  refine ⟨by decide, by decide, by decide, by decide⟩



lemma exitCode_ne_zero_iff (o : RunOut) : exitCode o ≠ 0 ↔ false ∈ o.results := by
  rw [exitCode]
  by_cases h : errorCount o = 0
  · rw [if_pos h]
    simp only [ne_eq, not_true_eq_false, false_iff]
    rw [errorCount] at h
    intro hf
    have := List.countP_eq_zero.1 h false hf
    simp at this
  · rw [if_neg h]
    simp only [ne_eq, one_ne_zero, not_false_eq_true, true_iff]
    rw [errorCount] at h
    rcases List.countP_pos_iff.1 (Nat.pos_of_ne_zero h) with ⟨b, hb, hpb⟩
    cases b with
    | true => simp at hpb
    | false => exact hb

/-- C8: every targeted record is processed and contributes exactly its
own upsert outcome to the gathered results (no failure aborts the
others), and the run's exit status is non-zero exactly when at least one
record failed. -/
theorem run_status_spec (env : Env) (mode : Mode) (cat : List SyncEntry)
    (filt : Str) (dryRun : Bool) :
    (runSync env mode cat filt dryRun).results =
      (runSync env mode cat filt dryRun).processed.map
        (fun e => (upsert_entry env e dryRun).2)
    ∧ (exitCode (runSync env mode cat filt dryRun) ≠ 0 ↔
        false ∈ (runSync env mode cat filt dryRun).results) := by
  refine ⟨?_, exitCode_ne_zero_iff _⟩
  cases mode with
  | reset =>
      cases dryRun with
      | true =>
          rw [runSync_reset_dry_eq]
          simp [List.map_map, Function.comp_def]
      | false =>
          rw [runSync_reset_eq]
          simp [List.map_map, Function.comp_def]
  | new =>
      rw [results_nonreset new_mode_ne_reset, processed_nonreset new_mode_ne_reset]
  | update =>
      rw [results_nonreset (by decide), processed_nonreset (by decide)]
  | all =>
      rw [results_nonreset (by decide), processed_nonreset (by decide)]

lemma countP_set_shift {α : Type} (p : α → Bool) : ∀ (l : List α) (i : Nat)
    (x y : α), l[i]? = some y →
    (l.set i x).countP p + (if p y then 1 else 0)
      = l.countP p + (if p x then 1 else 0) := by
  intro l
  induction l with
  | nil => intro i x y h; simp at h
  | cons e t ih =>
      intro i x y h
      cases i with
      | zero =>
          rw [List.getElem?_cons_zero, Option.some.injEq] at h
          subst h
          rw [List.set_cons_zero, List.countP_cons, List.countP_cons]
          cases hpy : p e <;> cases hpx : p x <;> simp [hpy, hpx]
      | succ n =>
          rw [List.getElem?_cons_succ] at h
          rw [List.set_cons_succ, List.countP_cons, List.countP_cons]
          have := ih n x y h
          omega

lemma sem_invariant (n : Nat) : ∀ s, SemReach (initState n) s →
    outstanding s + s.avail = CONCURRENCY := by
  intro s h
  induction h with
  | refl =>
      rw [outstanding, initState]
      simp [List.countP_replicate]
  | step hreach hstep ih =>
      rename_i s1 t1
      cases hstep with
      | acquire i hp ha =>
          have hc := countP_set_shift (fun p => p == Phase.running)
            s1.tasks i Phase.running Phase.pending hp
          simp only [outstanding] at *
          simp at hc
          omega
      | release i hr =>
          have hc := countP_set_shift (fun p => p == Phase.running)
            s1.tasks i Phase.done Phase.running hr
          simp only [outstanding] at *
          simp at hc
          omega

/-- C9 (amended): every create, update and archive call of every run is
issued under the semaphore; in the interleaving semantics of a gather of
semaphore-guarded tasks at most `CONCURRENCY = 3` calls are outstanding
in any reachable state; and the paginated list calls are never issued
under the semaphore. -/
theorem semaphore_spec :
    (∀ (env : Env) (mode : Mode) (cat : List SyncEntry) (filt : Str)
        (dryRun : Bool) (ev : Ev),
        ev ∈ (runSync env mode cat filt dryRun).trace → isNetwork ev = true →
        isListEv ev = false → evGuarded ev = true)
    ∧ (∀ (n : Nat) (s : SemState), SemReach (initState n) s →
        outstanding s ≤ CONCURRENCY)
    ∧ (∀ (env : Env) (mode : Mode) (cat : List SyncEntry) (filt : Str)
        (dryRun : Bool) (g : Bool),
        Ev.listCall g ∈ (runSync env mode cat filt dryRun).trace → g = false) := by
  refine ⟨?_, ?_, ?_⟩
  · intro env mode cat filt dryRun ev hev hnet hlist
    have hupsert : ∀ (e : SyncEntry) (d : Bool), ev ∈ (upsert_entry env e d).1 →
        evGuarded ev = true := by
      intro e d hup
      rcases mem_upsert_events hup with rfl | rfl | rfl
      · rfl
      · rfl
      · rfl
    cases mode with
    | reset =>
        cases dryRun with
        | true =>
            rw [runSync_reset_dry_eq] at hev
            rcases List.mem_append.1 hev with h2 | h2
            · rcases List.mem_map.1 h2 with ⟨_, _, rfl⟩
              simp [isListEv] at hlist
            · rcases mem_flatten_upserts h2 with ⟨e, _, hup⟩
              rw [upsert_entry_dry] at hup
              exact absurd hup (List.not_mem_nil ev)
        | false =>
            rw [runSync_reset_eq] at hev
            simp only [List.append_assoc, List.singleton_append] at hev
            rcases List.mem_append.1 hev with h2 | h2
            · rcases List.mem_map.1 h2 with ⟨_, _, rfl⟩
              simp [isListEv] at hlist
            · rcases List.mem_append.1 h2 with h3 | h3
              · rcases List.mem_map.1 h3 with ⟨_, _, rfl⟩
                rfl
              · rcases List.mem_cons.1 h3 with rfl | h4
                · simp [isNetwork] at hnet
                · rcases mem_flatten_upserts h4 with ⟨e, _, hup⟩
                  exact hupsert e false hup
    | new =>
        rcases (mem_trace_nonreset new_mode_ne_reset).1 hev with ⟨e, _, hup⟩
        exact hupsert e dryRun hup
    | update =>
        rcases (mem_trace_nonreset (by decide)).1 hev with ⟨e, _, hup⟩
        exact hupsert e dryRun hup
    | all =>
        rcases (mem_trace_nonreset (by decide)).1 hev with ⟨e, _, hup⟩
        exact hupsert e dryRun hup
  · intro n s h
    have := sem_invariant n s h
    omega
  · intro env mode cat filt dryRun g hev
    have hupsert : ∀ (e : SyncEntry) (d : Bool),
        Ev.listCall g ∈ (upsert_entry env e d).1 → g = false := by
      intro e d hup
      rcases mem_upsert_events hup with h5 | h5 | h5 <;> exact Ev.noConfusion h5
    cases mode with
    | reset =>
        cases dryRun with
        | true =>
            rw [runSync_reset_dry_eq] at hev
            rcases List.mem_append.1 hev with h2 | h2
            · rcases List.mem_map.1 h2 with ⟨_, _, h3⟩
              injection h3 with h4
              exact h4.symm
            · rcases mem_flatten_upserts h2 with ⟨e, _, hup⟩
              rw [upsert_entry_dry] at hup
              exact absurd hup (List.not_mem_nil _)
        | false =>
            rw [runSync_reset_eq] at hev
            simp only [List.append_assoc, List.singleton_append] at hev
            rcases List.mem_append.1 hev with h2 | h2
            · rcases List.mem_map.1 h2 with ⟨_, _, h3⟩
              injection h3 with h4
              exact h4.symm
            · rcases List.mem_append.1 h2 with h3 | h3
              · rcases List.mem_map.1 h3 with ⟨_, _, h4⟩
                exact Ev.noConfusion h4
              · rcases List.mem_cons.1 h3 with h4 | h4
                · exact Ev.noConfusion h4
                · rcases mem_flatten_upserts h4 with ⟨e, _, hup⟩
                  exact hupsert e false hup
    | new =>
        rcases (mem_trace_nonreset new_mode_ne_reset).1 hev with ⟨e, _, hup⟩
        exact hupsert e dryRun hup
    | update =>
        rcases (mem_trace_nonreset (by decide)).1 hev with ⟨e, _, hup⟩
        exact hupsert e dryRun hup
    | all =>
        rcases (mem_trace_nonreset (by decide)).1 hev with ⟨e, _, hup⟩
        exact hupsert e dryRun hup

/-- C9 as stated is false: the reset run's paginated query is a network
call issued outside the semaphore. -/
theorem semaphore_counterexample :
    Ev.listCall false ∈ (runSync env0 Mode.reset cat0 [] false).trace
    ∧ isNetwork (Ev.listCall false) = true
    ∧ evGuarded (Ev.listCall false) = false := by
  refine ⟨by decide, by decide, by decide⟩


end Scout
